import Mathlib

/-!
Verification of the llm-page-parser content-extraction pipeline.

The Python sources (parse_local_html.py, webpage_to_llm.py, webpage_to_llm_js.py,
save_and_parse_arc.py, webpage_to_llm_safari.py, webpage_to_llm_cookies.py) are
shallowly embedded here.  Python strings are lists of characters; results of the
external libraries (trafilatura, BeautifulSoup parsing/selecting/get_text,
markdownify) are opaque inputs to the embedded functions, exactly as the
repository code consumes them.  BeautifulSoup `Tag` objects are always truthy
(`Tag.__bool__` returns `True` unconditionally), so Python `if tag:` checks on
optional tags are modelled as `Option.isSome`.
-/

set_option maxRecDepth 20000

namespace LlmPageParser

/-- Python strings, modelled as lists of characters. -/
abbrev PyStr := List Char

/-- Truthiness of a Python string: non-empty. -/
def strTruthy (s : PyStr) : Bool := !s.isEmpty

/-- Truthiness of an optional Python string (`None` and `""` are falsy). -/
def optTruthy : Option PyStr → Bool
  | none => false
  | some s => strTruthy s

/-- Characters removed by Python `str.strip()` (ASCII whitespace; `\x0b` and
`\x0c` are vertical tab and form feed). -/
def pySpace (c : Char) : Bool :=
  c == ' ' || c == '\t' || c == '\n' || c == '\r' ||
    c == Char.ofNat 11 || c == Char.ofNat 12

/-- Python `s.lstrip()`: drop leading whitespace. -/
def pyStripLeft (s : PyStr) : PyStr := s.dropWhile pySpace

/-- Python `s.rstrip()`: drop trailing whitespace. -/
def pyStripRight (s : PyStr) : PyStr := (s.reverse.dropWhile pySpace).reverse

/-- Python `s.strip()`: drop leading and trailing whitespace. -/
def pyStrip (s : PyStr) : PyStr := pyStripRight (pyStripLeft s)

/-- Python `s.split(sep)` for a one-character separator: `"".split(c) = [""]`,
and every occurrence of the separator starts a new field. -/
def pySplit (sep : Char) : PyStr → List PyStr
  | [] => [[]]
  | c :: cs =>
    if c = sep then [] :: pySplit sep cs
    else
      match pySplit sep cs with
      | [] => [[c]]
      | l :: ls => (c :: l) :: ls

/-- Python `'\n'.join(ls)`. -/
def pyJoinNl : List PyStr → PyStr
  | [] => []
  | [l] => l
  | l :: l' :: ls => l ++ '\n' :: pyJoinNl (l' :: ls)

/-- The Markdown Normalizer's whitespace-collapse step
(parse_local_html.py lines 127-128, webpage_to_llm.py lines 64-65,
webpage_to_llm_js.py lines 98-99, and the analogous lines of the other
front ends):
`lines = [line.strip() for line in content.split('\n')]` followed by
`'\n'.join(line for line in lines if line)`. -/
def collapseWhitespace (s : PyStr) : PyStr :=
  pyJoinNl (((pySplit '\n' s).map pyStrip).filter strTruthy)

/-! Basic facts about the Python string primitives. -/

theorem pySplit_ne_nil (sep : Char) (s : PyStr) : pySplit sep s ≠ [] := by
  induction s with
  | nil => simp [pySplit]
  | cons c cs ih =>
    by_cases h : c = sep
    · simp [pySplit, h]
    · simp only [pySplit, if_neg h]
      cases hcs : pySplit sep cs with
      | nil => simp
      | cons l ls => simp

theorem not_mem_of_mem_pySplit (sep : Char) (s : PyStr) :
    ∀ l ∈ pySplit sep s, sep ∉ l := by
  induction s with
  | nil => intro l hl; simp [pySplit] at hl; simp [hl]
  | cons c cs ih =>
    intro l hl
    by_cases h : c = sep
    · simp only [pySplit, if_pos h, List.mem_cons] at hl
      rcases hl with hl | hl
      · simp [hl]
      · exact ih l hl
    · simp only [pySplit, if_neg h] at hl
      rcases hcs : pySplit sep cs with _ | ⟨m, ms⟩
      · exact absurd hcs (pySplit_ne_nil sep cs)
      · rw [hcs, List.mem_cons] at hl
        rcases hl with hl | hl
        · subst hl
          intro hmem
          rcases List.mem_cons.mp hmem with h1 | h1
          · exact h (h1.symm)
          · exact ih m (by rw [hcs]; exact List.mem_cons_self m ms) h1
        · exact ih l (by rw [hcs]; exact List.mem_cons_of_mem m hl)

theorem pySplit_eq_single (sep : Char) (l : PyStr) (h : sep ∉ l) :
    pySplit sep l = [l] := by
  induction l with
  | nil => simp [pySplit]
  | cons c cs ih =>
    have hc : ¬ c = sep := fun hcs => h (by simp [hcs])
    have hcs' : sep ∉ cs := fun hm => h (by simp [hm])
    simp [pySplit, if_neg hc, ih hcs']

theorem pySplit_append_cons (sep : Char) (l t : PyStr) (h : sep ∉ l) :
    pySplit sep (l ++ sep :: t) = l :: pySplit sep t := by
  induction l with
  | nil => simp [pySplit]
  | cons c cs ih =>
    have hc : ¬ c = sep := fun hcs => h (by simp [hcs])
    have hcs' : sep ∉ cs := fun hm => h (by simp [hm])
    have hih := ih hcs'
    simp only [List.cons_append, pySplit, if_neg hc, List.append_eq, hih]

theorem pySplit_pyJoinNl (ls : List PyStr) (hne : ls ≠ [])
    (h : ∀ l ∈ ls, '\n' ∉ l) : pySplit '\n' (pyJoinNl ls) = ls := by
  induction ls with
  | nil => exact absurd rfl hne
  | cons l ls ih =>
    cases ls with
    | nil =>
      simp only [pyJoinNl]
      exact pySplit_eq_single '\n' l (h l (by simp))
    | cons l' ls' =>
      have hl : '\n' ∉ l := h l (by simp)
      simp only [pyJoinNl]
      rw [pySplit_append_cons '\n' l _ hl]
      congr 1
      exact ih (by simp) (fun m hm => h m (by simp [hm]))

theorem dropWhile_idem (p : α → Bool) (l : List α) :
    (l.dropWhile p).dropWhile p = l.dropWhile p := by
  induction l with
  | nil => simp
  | cons a t ih =>
    by_cases h : p a
    · simp [List.dropWhile_cons, h, ih]
    · simp [List.dropWhile_cons, h]

theorem dropWhile_head_not (p : α → Bool) (l : List α) (a : α) (t : List α)
    (h : l.dropWhile p = a :: t) : p a = false := by
  induction l with
  | nil => simp at h
  | cons c cs ih =>
    by_cases hc : p c
    · rw [List.dropWhile_cons, if_pos hc] at h
      exact ih h
    · rw [List.dropWhile_cons, if_neg hc] at h
      cases h
      simpa using hc

theorem dropWhile_eq_self_of_head (p : α → Bool) (a : α) (t : List α)
    (h : p a = false) : (a :: t).dropWhile p = a :: t := by
  simp [List.dropWhile_cons, h]

theorem pyStripRight_isPrefix (s : PyStr) : pyStripRight s <+: s := by
  have hsuf : s.reverse.dropWhile pySpace <:+ s.reverse := List.dropWhile_suffix _
  rcases hsuf with ⟨w, hw⟩
  refine ⟨w.reverse, ?_⟩
  have := congrArg List.reverse hw
  simpa [pyStripRight] using this

theorem pyStripRight_idem (s : PyStr) :
    pyStripRight (pyStripRight s) = pyStripRight s := by
  simp [pyStripRight, dropWhile_idem]

theorem pyStrip_idem (s : PyStr) : pyStrip (pyStrip s) = pyStrip s := by
  unfold pyStrip
  set m := pyStripLeft s with hm
  have hmhead : ∀ a t, m = a :: t → pySpace a = false := by
    intro a t hat
    exact dropWhile_head_not pySpace s a t (by simpa [hm, pyStripLeft] using hat)
  have hleft : pyStripLeft (pyStripRight m) = pyStripRight m := by
    rcases hsr : pyStripRight m with _ | ⟨a, t⟩
    · simp [pyStripLeft]
    · have hpre : pyStripRight m <+: m := pyStripRight_isPrefix m
      rw [hsr] at hpre
      rcases hpre with ⟨w, hw⟩
      have ha : pySpace a = false := hmhead a (t ++ w) (by simpa using hw.symm)
      simpa [pyStripLeft] using dropWhile_eq_self_of_head pySpace a t ha
  rw [hleft, pyStripRight_idem]

theorem mem_pyStrip (s : PyStr) (c : Char) (h : c ∈ pyStrip s) : c ∈ s := by
  have h1 : pyStrip s <+: pyStripLeft s := by
    simpa [pyStrip] using pyStripRight_isPrefix (pyStripLeft s)
  have h2 : pyStripLeft s <:+ s := List.dropWhile_suffix _
  exact h2.subset (h1.subset h)

/-- Claim C9 helper: every line kept by the collapse step is stripped,
non-empty, and newline-free. -/
theorem collapse_lines_spec (s : PyStr) :
    ∀ l ∈ ((pySplit '\n' s).map pyStrip).filter strTruthy,
      pyStrip l = l ∧ strTruthy l = true ∧ '\n' ∉ l := by
  intro l hl
  rw [List.mem_filter] at hl
  obtain ⟨hmem, htr⟩ := hl
  rw [List.mem_map] at hmem
  obtain ⟨raw, hraw, hstrip⟩ := hmem
  refine ⟨?_, htr, ?_⟩
  · rw [← hstrip, pyStrip_idem]
  · intro hnl
    have : '\n' ∈ raw := by
      apply mem_pyStrip raw
      rwa [hstrip]
    exact not_mem_of_mem_pySplit '\n' s raw hraw this

/-- Claim C9 core: collapsing the output of a collapse is a no-op. -/
theorem collapseWhitespace_idem (s : PyStr) :
    collapseWhitespace (collapseWhitespace s) = collapseWhitespace s := by
  unfold collapseWhitespace
  set L := ((pySplit '\n' s).map pyStrip).filter strTruthy with hL
  have hspec := collapse_lines_spec s
  rw [← hL] at hspec
  cases hLnil : L with
  | nil => simp [hLnil, pyJoinNl, pySplit, pyStrip, pyStripLeft, pyStripRight, strTruthy]
  | cons l0 ls0 =>
    rw [← hLnil]
    have hsplit : pySplit '\n' (pyJoinNl L) = L := by
      apply pySplit_pyJoinNl L (by simp [hLnil])
      intro l hl
      exact (hspec l hl).2.2
    rw [hsplit]
    have hmap : L.map pyStrip = L := by
      have h1 : ∀ l ∈ L, pyStrip l = l := fun l hl => (hspec l hl).1
      calc L.map pyStrip = L.map id := List.map_congr_left (fun a ha => h1 a ha)
        _ = L := List.map_id L
    rw [hmap]
    have hfil : L.filter strTruthy = L :=
      List.filter_eq_self.mpr (fun l hl => (hspec l hl).2.1)
    rw [hfil]

/-- C9 — the Markdown Normalizer's whitespace-collapse step (split on newlines,
strip each line, drop empty lines, rejoin) is idempotent:
`collapse (collapse s) = collapse s` for every string `s`. -/
theorem C9_collapse_idempotent (s : PyStr) :
    collapseWhitespace (collapseWhitespace s) = collapseWhitespace s :=
  collapseWhitespace_idem s

/-!
The Candidate Region Scorer of parse_local_html.py (the score-everything
variant, lines 94-106).  A DOM element is opaque to the repository code: the
only operations performed on it are identity comparison (via assignment) and
`len(elem.get_text(strip=True))`, so an element is modelled by an identity tag
plus its visible text.  `soup.select(selector)` is a BeautifulSoup library
call; its per-selector result lists (document order) are inputs to the scorer.
A selector whose evaluation raises is skipped by the `except: continue`,
contributing an empty list.
-/

/-- A DOM element handle: an identity plus the text `get_text(strip=True)`
returns for it. -/
structure Elem where
  id : Nat
  text : PyStr
deriving DecidableEq

/-- Visible-text length of an element, `len(elem.get_text(strip=True))`. -/
def textLen (e : Elem) : Nat := e.text.length

/-- One step of the running-best loop of parse_local_html.py lines 100-104:
`if text_length > 100: if not main_content or text_length > len(...): main_content = elem`.
A kept best always has more than 100 characters of text, hence is a non-empty
tag, hence truthy, so `not main_content` is `main_content is None`. -/
def bestStep (best : Option Elem) (e : Elem) : Option Elem :=
  if 100 < textLen e then
    match best with
    | none => some e
    | some b => if textLen b < textLen e then some e else some b
  else best

/-- The selector pass of parse_local_html.py lines 94-106: iterate the
selector list, and fold every matched element through the running-best test.
`ms` is the list of `soup.select(selector)` results, one per selector, in the
order of `content_selectors`. -/
def selectorPass (ms : List (List Elem)) : Option Elem :=
  ms.foldl (fun acc elems => elems.foldl bestStep acc) none

theorem selectorPass_eq_foldl_flatten (ms : List (List Elem)) :
    selectorPass ms = ms.flatten.foldl bestStep none := by
  rw [selectorPass, List.foldl_flatten]

theorem bestStep_qual (acc : Option Elem) (e : Elem) (b : Elem)
    (hacc : ∀ x, acc = some x → 100 < textLen x)
    (h : bestStep acc e = some b) : 100 < textLen b := by
  unfold bestStep at h
  by_cases hq : 100 < textLen e
  · rw [if_pos hq] at h
    cases acc with
    | none => cases h; exact hq
    | some a =>
      by_cases hlt : textLen a < textLen e
      · simp only [if_pos hlt] at h; cases h; exact hq
      · simp only [if_neg hlt] at h; cases h; exact hacc b rfl
  · rw [if_neg hq] at h
    exact hacc b h

theorem foldl_bestStep_qual (l : List Elem) :
    ∀ acc, (∀ x, acc = some x → 100 < textLen x) →
      ∀ b, l.foldl bestStep acc = some b → 100 < textLen b := by
  induction l with
  | nil => intro acc hacc b h; exact hacc b h
  | cons a t ih =>
    intro acc hacc b h
    rw [List.foldl_cons] at h
    refine ih (bestStep acc a) ?_ b h
    intro x hx
    exact bestStep_qual acc a x hacc hx

theorem foldl_bestStep_stay (e : Elem) (t : List Elem)
    (h : ∀ e' ∈ t, textLen e' ≤ textLen e) :
    t.foldl bestStep (some e) = some e := by
  induction t with
  | nil => rfl
  | cons a t ih =>
    rw [List.foldl_cons]
    have ha : textLen a ≤ textLen e := h a (by simp)
    have hstep : bestStep (some e) a = some e := by
      unfold bestStep
      by_cases hq : 100 < textLen a
      · rw [if_pos hq]
        simp only [if_neg (Nat.not_lt.mpr ha)]
      · rw [if_neg hq]
    rw [hstep]
    exact ih (fun e' he' => h e' (by simp [he']))

theorem foldl_bestStep_low (n : Nat) (l : List Elem)
    (hl : ∀ e' ∈ l, textLen e' < n) :
    ∀ acc, (∀ x, acc = some x → textLen x < n) →
      ∀ x, l.foldl bestStep acc = some x → textLen x < n := by
  induction l with
  | nil => intro acc hacc x h; exact hacc x h
  | cons a t ih =>
    intro acc hacc x h
    rw [List.foldl_cons] at h
    refine ih (fun e' he' => hl e' (by simp [he'])) (bestStep acc a) ?_ x h
    intro y hy
    unfold bestStep at hy
    by_cases hq : 100 < textLen a
    · rw [if_pos hq] at hy
      cases acc with
      | none => cases hy; exact hl a (by simp)
      | some b =>
        by_cases hlt : textLen b < textLen a
        · simp only [if_pos hlt] at hy; cases hy; exact hl a (by simp)
        · simp only [if_neg hlt] at hy; cases hy; exact hacc y rfl
    · rw [if_neg hq] at hy
      exact hacc y hy

theorem foldl_bestStep_first_max (pre post : List Elem) (e : Elem)
    (hqual : 100 < textLen e)
    (hpre : ∀ e' ∈ pre, textLen e' < textLen e)
    (hpost : ∀ e' ∈ post, textLen e' ≤ textLen e) :
    (pre ++ e :: post).foldl bestStep none = some e := by
  rw [List.foldl_append]
  have hacc : ∀ x, pre.foldl bestStep none = some x → textLen x < textLen e :=
    foldl_bestStep_low (textLen e) pre hpre none (by intro x hx; cases hx)
  rw [List.foldl_cons]
  have hstep : bestStep (pre.foldl bestStep none) e = some e := by
    cases hfold : pre.foldl bestStep none with
    | none => unfold bestStep; rw [if_pos hqual]
    | some b =>
      have hb := hacc b hfold
      unfold bestStep
      rw [if_pos hqual]
      simp only [if_pos hb]
  rw [hstep]
  exact foldl_bestStep_stay e post hpost

/-- C2 — score-everything Scorer: with a strictly maximal qualifying element
`e` (text length over 100, every other matched element strictly shorter), the
selector pass returns `e`, and it returns `e` for any permutation of the
selector list as well: selector position never decides the winner. -/
theorem C2_scorer_strict_max_order_independent {σ : Type}
    (sels sels' : List σ) (select : σ → List Elem) (e : Elem)
    (hperm : sels.Perm sels')
    (hmem : e ∈ sels.flatMap select)
    (hqual : 100 < textLen e)
    (hmax : ∀ e' ∈ sels.flatMap select, e' ≠ e → textLen e' < textLen e) :
    selectorPass (sels.map select) = some e ∧
      selectorPass (sels'.map select) = some e := by
  have key : ∀ (ss : List σ), e ∈ ss.flatMap select →
      (∀ e' ∈ ss.flatMap select, e' ≠ e → textLen e' < textLen e) →
      selectorPass (ss.map select) = some e := by
    intro ss hm hx
    rw [selectorPass_eq_foldl_flatten, ← List.flatMap_def]
    set l := ss.flatMap select with hl
    clear_value l
    clear hl
    have hgen : ∀ (l : List Elem) (acc : Option Elem), e ∈ l →
        (∀ e' ∈ l, e' ≠ e → textLen e' < textLen e) →
        (∀ b, acc = some b → textLen b < textLen e) →
        l.foldl bestStep acc = some e := by
      intro l
      induction l with
      | nil => intro acc hm' _ _; cases hm'
      | cons a t ih =>
        intro acc hm' hx' hacc
        rw [List.foldl_cons]
        by_cases hae : a = e
        · subst hae
          have hstep : bestStep acc a = some a := by
            unfold bestStep
            rw [if_pos hqual]
            cases hc : acc with
            | none => rfl
            | some b => simp only [if_pos (hacc b hc)]
          rw [hstep]
          exact foldl_bestStep_stay a t (fun e' he' => by
            by_cases h' : e' = a
            · exact h' ▸ Nat.le_refl _
            · exact Nat.le_of_lt (hx' e' (by simp [he']) h'))
        · have hme : e ∈ t := by
            rcases List.mem_cons.mp hm' with h' | h'
            · exact absurd h'.symm hae
            · exact h'
          refine ih (bestStep acc a) hme
            (fun e' he' hne => hx' e' (by simp [he']) hne) ?_
          intro b hb
          have ha : textLen a < textLen e := hx' a (by simp) hae
          unfold bestStep at hb
          by_cases hq : 100 < textLen a
          · rw [if_pos hq] at hb
            cases hc : acc with
            | none => rw [hc] at hb; cases hb; exact ha
            | some c =>
              rw [hc] at hb
              by_cases hlt : textLen c < textLen a
              · simp only [if_pos hlt] at hb; cases hb; exact ha
              · simp only [if_neg hlt] at hb; cases hb; exact hacc b hc
          · rw [if_neg hq] at hb
            exact hacc b hb
    exact hgen l none hm hx (by intro b hb; cases hb)
  have hmem' : e ∈ sels'.flatMap select := by
    rw [List.mem_flatMap] at hmem ⊢
    obtain ⟨s, hs, he⟩ := hmem
    exact ⟨s, hperm.mem_iff.mp hs, he⟩
  have hmax' : ∀ e' ∈ sels'.flatMap select, e' ≠ e → textLen e' < textLen e := by
    intro e' he' hne
    rw [List.mem_flatMap] at he'
    obtain ⟨s, hs, he''⟩ := he'
    exact hmax e' (List.mem_flatMap.mpr ⟨s, hperm.mem_iff.mpr hs, he''⟩) hne
  exact ⟨key sels hmem hmax, key sels' hmem' hmax'⟩

/-- Concrete selector-result function for the C2 witness: two selectors, the
strictly longest element appears under the second one. -/
def selectC2 : Nat → List Elem
  | 0 => [⟨0, List.replicate 120 'a'⟩, ⟨1, List.replicate 50 'b'⟩]
  | 1 => [⟨2, List.replicate 150 'c'⟩]
  | _ => []

/-- Witness for C2: the 150-character element wins both under the original
selector order and under a permuted one. -/
theorem C2_witness :
    selectorPass ([0, 1].map selectC2) = some ⟨2, List.replicate 150 'c'⟩ ∧
      selectorPass ([1, 0].map selectC2) = some ⟨2, List.replicate 150 'c'⟩ :=
  C2_scorer_strict_max_order_independent [0, 1] [1, 0] selectC2
    ⟨2, List.replicate 150 'c'⟩ (by decide) (by decide) (by decide)
    (by decide)

/-- C4 — score-everything Scorer boundary: an element with exactly 100
characters of text is never the selected candidate, while a 101-character
element that is the only match is selected; the floor is strictly greater
than 100. -/
theorem C4_hundred_char_floor (ms : List (List Elem)) (e100 e101 : Elem)
    (h100 : textLen e100 = 100) (h101 : textLen e101 = 101) :
    selectorPass ms ≠ some e100 ∧ selectorPass [[e101]] = some e101 := by
  constructor
  · intro h
    rw [selectorPass_eq_foldl_flatten] at h
    have := foldl_bestStep_qual ms.flatten none (by intro x hx; cases hx) e100 h
    omega
  · show selectorPass [[e101]] = some e101
    rw [selectorPass_eq_foldl_flatten]
    show bestStep none e101 = some e101
    unfold bestStep
    rw [h101]
    rfl

/-- Witness for C4 at concrete elements: a lone 100-character match is
rejected, a lone 101-character match is selected. -/
theorem C4_witness :
    selectorPass [[⟨0, List.replicate 100 'a'⟩]] ≠ some ⟨0, List.replicate 100 'a'⟩ ∧
      selectorPass [[⟨1, List.replicate 101 'a'⟩]] = some ⟨1, List.replicate 101 'a'⟩ :=
  C4_hundred_char_floor [[⟨0, List.replicate 100 'a'⟩]]
    ⟨0, List.replicate 100 'a'⟩ ⟨1, List.replicate 101 'a'⟩
    (by simp [textLen]) (by simp [textLen])

/-- C10 — implicit tie-break of the score-everything Scorer: the candidate is
replaced only on strictly greater text length, so the first element of the
encounter stream (selectors in list order, matches in document order) whose
length is not exceeded later is returned; a later element of equal length
never displaces it. -/
theorem C10_tie_break_first_encountered (ms : List (List Elem))
    (pre post : List Elem) (e : Elem)
    (hsplit : ms.flatten = pre ++ e :: post)
    (hqual : 100 < textLen e)
    (hpre : ∀ e' ∈ pre, textLen e' < textLen e)
    (hpost : ∀ e' ∈ post, textLen e' ≤ textLen e) :
    selectorPass ms = some e := by
  rw [selectorPass_eq_foldl_flatten, hsplit]
  exact foldl_bestStep_first_max pre post e hqual hpre hpost

/-- Witness for C10: two elements of equal 150-character length, matched by
different selectors; the one under the earlier selector is returned. -/
theorem C10_witness :
    selectorPass [[⟨0, List.replicate 150 'a'⟩], [⟨1, List.replicate 150 'b'⟩]] =
      some ⟨0, List.replicate 150 'a'⟩ :=
  C10_tie_break_first_encountered
    [[⟨0, List.replicate 150 'a'⟩], [⟨1, List.replicate 150 'b'⟩]]
    [] [⟨1, List.replicate 150 'b'⟩] ⟨0, List.replicate 150 'a'⟩
    (by decide) (by decide) (by decide) (by decide)

/-!
The largest-text-div fallback pass of parse_local_html.py, lines 108-120.
-/

/-- Python substring test `needle in hay` for strings. -/
def containsSub (needle : PyStr) : PyStr → Bool
  | [] => needle.isEmpty
  | c :: t => needle.isPrefixOf (c :: t) || containsSub needle t

theorem containsSub_of_isPrefix (n h : PyStr) (hp : n <+: h) :
    containsSub n h = true := by
  cases h with
  | nil =>
    rcases hp with ⟨t, ht⟩
    rcases List.append_eq_nil.mp ht with ⟨hn, _⟩
    simp [containsSub, hn]
  | cons c t =>
    simp only [containsSub, Bool.or_eq_true, List.isPrefixOf_iff_prefix]
    exact Or.inl hp

theorem prefix_take_of_le {α : Type} (p l : List α) (n : Nat) (h : p <+: l)
    (hn : p.length ≤ n) : p <+: l.take n := by
  rw [List.prefix_iff_eq_take] at h ⊢
  rw [List.take_take, Nat.min_eq_left hn]
  exact h

/-- Stable descending insertion by a numeric key: a new element passes only
elements with strictly smaller key, so equal-key elements keep their original
relative order.  This realizes Python's stable
`list.sort(key=..., reverse=True)`. -/
def insertDescBy (key : α → Nat) (a : α) : List α → List α
  | [] => [a]
  | b :: t => if key b < key a then a :: b :: t else b :: insertDescBy key a t

/-- Stable descending sort by a numeric key, modelling
`text_divs.sort(key=lambda x: x[1], reverse=True)`. -/
def sortDescBy (key : α → Nat) : List α → List α
  | [] => []
  | a :: t => insertDescBy key a (sortDescBy key t)

theorem mem_insertDescBy (key : α → Nat) (a x : α) (l : List α) :
    x ∈ insertDescBy key a l ↔ x = a ∨ x ∈ l := by
  induction l with
  | nil => simp [insertDescBy]
  | cons b t ih =>
    by_cases h : key b < key a
    · simp [insertDescBy, if_pos h]
    · simp only [insertDescBy, if_neg h, List.mem_cons, ih]
      tauto

theorem mem_sortDescBy (key : α → Nat) (x : α) (l : List α) :
    x ∈ sortDescBy key l ↔ x ∈ l := by
  induction l with
  | nil => simp [sortDescBy]
  | cons a t ih => simp [sortDescBy, mem_insertDescBy, ih]

theorem pairwise_insertDescBy (key : α → Nat) (a : α) (l : List α)
    (h : l.Pairwise (fun x y => key y ≤ key x)) :
    (insertDescBy key a l).Pairwise (fun x y => key y ≤ key x) := by
  induction l with
  | nil => simp [insertDescBy]
  | cons b t ih =>
    rcases List.pairwise_cons.mp h with ⟨hb, ht⟩
    by_cases hba : key b < key a
    · rw [insertDescBy, if_pos hba]
      refine List.pairwise_cons.mpr ⟨?_, h⟩
      intro x hx
      rcases List.mem_cons.mp hx with hx | hx
      · exact hx ▸ Nat.le_of_lt hba
      · exact Nat.le_trans (hb x hx) (Nat.le_of_lt hba)
    · rw [insertDescBy, if_neg hba]
      refine List.pairwise_cons.mpr ⟨?_, ih ht⟩
      intro x hx
      rcases (mem_insertDescBy key a x t).mp hx with hx | hx
      · exact hx ▸ Nat.le_of_not_lt hba
      · exact hb x hx

theorem pairwise_sortDescBy (key : α → Nat) (l : List α) :
    (sortDescBy key l).Pairwise (fun x y => key y ≤ key x) := by
  induction l with
  | nil => simp [sortDescBy]
  | cons a t ih => exact pairwise_insertDescBy key a _ ih

theorem sortDescBy_ne_nil (key : α → Nat) (l : List α) (h : l ≠ []) :
    sortDescBy key l ≠ [] := by
  cases l with
  | nil => exact absurd rfl h
  | cons a t =>
    rw [sortDescBy]
    cases hs : sortDescBy key t with
    | nil => simp [insertDescBy]
    | cons b u =>
      rw [insertDescBy]
      by_cases hba : key b < key a
      · simp [if_pos hba]
      · simp [if_neg hba]

theorem head_sortDescBy_max (key : α → Nat) (l : List α) (m : α)
    (h : (sortDescBy key l).head? = some m) :
    m ∈ l ∧ ∀ x ∈ l, key x ≤ key m := by
  cases hs : sortDescBy key l with
  | nil => rw [hs] at h; cases h
  | cons b u =>
    rw [hs] at h
    cases h
    have hpw := pairwise_sortDescBy key l
    rw [hs] at hpw
    rcases List.pairwise_cons.mp hpw with ⟨hrel, _⟩
    constructor
    · exact (mem_sortDescBy key m l).mp (hs ▸ List.mem_cons_self m u)
    · intro x hx
      have : x ∈ sortDescBy key l := (mem_sortDescBy key x l).mpr hx
      rw [hs] at this
      rcases List.mem_cons.mp this with h' | h'
      · exact h' ▸ Nat.le_refl _
      · exact hrel x h'

/-- The boilerplate markers of parse_local_html.py line 115
(case-sensitive substrings). -/
def skipMarkers : List PyStr :=
  ["Cookie".toList, "Accept".toList, "Login".toList, "Sign in".toList]

/-- Survivor test of parse_local_html.py line 115:
`len(text) > 200 and not any(skip in text[:100] for skip in [...])`. -/
def survivorB (d : Elem) : Bool :=
  decide (200 < textLen d) &&
    !(skipMarkers.any fun m => containsSub m (d.text.take 100))

/-- Largest-text-div fallback of parse_local_html.py lines 108-120: keep the
divs passing the survivor test (the source caches `(div, len(text))` pairs;
the cached length is `textLen`), sort them descending by text length with
Python's stable sort, and take the first, or `None` when no div survives. -/
def divPass (divs : List Elem) : Option Elem :=
  (sortDescBy textLen (divs.filter survivorB)).head?

theorem divPass_survivor (divs : List Elem) (w : Elem)
    (h : divPass divs = some w) :
    w ∈ divs ∧ survivorB w = true ∧
      ∀ d ∈ divs, survivorB d = true → textLen d ≤ textLen w := by
  have hmax := head_sortDescBy_max textLen (divs.filter survivorB) w h
  rcases hmax with ⟨hmem, hmax⟩
  rcases List.mem_filter.mp hmem with ⟨hdiv, hsur⟩
  refine ⟨hdiv, hsur, ?_⟩
  intro d hd hds
  exact hmax d (List.mem_filter.mpr ⟨hd, hds⟩)

/-- C5 — largest-text-div fallback: the chosen div is a survivor (text length
over 200 and no marker `Cookie`/`Accept`/`Login`/`Sign in` in the first 100
characters) of maximal text length among survivors; a non-survivor is never
chosen; a div whose text starts with `"Cookie banner: accept all cookies..."`
is never chosen, however long; and when some survivor exists a div is
chosen. -/
theorem C5_largest_div_fallback
    (divs divsN divsCk divsEx : List Elem) (w dN dCk dEx : Elem)
    (h1 : divPass divs = some w)
    (hN : survivorB dN = false)
    (hCk : "Cookie banner: accept all cookies...".toList <+: dCk.text)
    (hEx : dEx ∈ divsEx) (hExS : survivorB dEx = true) :
    (w ∈ divs ∧ survivorB w = true ∧
        ∀ d ∈ divs, survivorB d = true → textLen d ≤ textLen w) ∧
      divPass divsN ≠ some dN ∧
      divPass divsCk ≠ some dCk ∧
      divPass divsEx ≠ none := by
  refine ⟨divPass_survivor divs w h1, ?_, ?_, ?_⟩
  · intro h
    have := (divPass_survivor divsN dN h).2.1
    rw [hN] at this
    cases this
  · intro h
    have hsur := (divPass_survivor divsCk dCk h).2.1
    have hcookie : ("Cookie".toList : PyStr) <+: dCk.text :=
      List.IsPrefix.trans (by decide) hCk
    have htake : ("Cookie".toList : PyStr) <+: dCk.text.take 100 :=
      prefix_take_of_le _ _ 100 hcookie (by decide)
    have hcontains : containsSub "Cookie".toList (dCk.text.take 100) = true :=
      containsSub_of_isPrefix _ _ htake
    have hany : (skipMarkers.any fun m => containsSub m (dCk.text.take 100)) = true := by
      apply List.any_eq_true.mpr
      exact ⟨"Cookie".toList, by simp [skipMarkers], hcontains⟩
    rw [survivorB, hany] at hsur
    simp at hsur
  · intro h
    rw [divPass] at h
    have : sortDescBy textLen (divsEx.filter survivorB) ≠ [] := by
      apply sortDescBy_ne_nil
      intro hnil
      have : dEx ∈ divsEx.filter survivorB := List.mem_filter.mpr ⟨hEx, hExS⟩
      rw [hnil] at this
      cases this
    rw [List.head?_eq_none_iff] at h
    exact this h

/-- Witness elements for C5: a long survivor, a longer cookie-banner div, and
a short div. -/
def dLongC5 : Elem := ⟨0, List.replicate 300 'x'⟩

/-- Witness element: a cookie-banner div, longest of all but boilerplate. -/
def dBannerC5 : Elem :=
  ⟨1, "Cookie banner: accept all cookies...".toList ++ List.replicate 400 'y'⟩

/-- Witness element: a 150-character div, below the 200-character floor. -/
def dShortC5 : Elem := ⟨2, List.replicate 150 'z'⟩

/-- Witness div list for C5, with the banner div first and longest. -/
def divsC5 : List Elem := [dBannerC5, dShortC5, dLongC5]

/-- Witness for C5: on a concrete div list the 300-character plain div wins;
the short div and the 436-character cookie-banner div are never chosen. -/
theorem C5_witness :
    (dLongC5 ∈ divsC5 ∧ survivorB dLongC5 = true ∧
        ∀ d ∈ divsC5, survivorB d = true → textLen d ≤ textLen dLongC5) ∧
      divPass divsC5 ≠ some dShortC5 ∧
      divPass divsC5 ≠ some dBannerC5 ∧
      divPass divsC5 ≠ none :=
  C5_largest_div_fallback divsC5 divsC5 divsC5 divsC5 dLongC5 dShortC5 dBannerC5
    dLongC5 (by decide) (by decide) (by decide) (by decide) (by decide)

/-!
URL recovery, parse_local_html.py lines 25-33.  The document's string nodes
(BeautifulSoup `NavigableString`s, in document order) are the input;
`Comment` is a `NavigableString` and both kinds are `str` instances, so
`soup.find_all(string=lambda text: isinstance(text, str) and ...)` returns
text nodes as well as comments.
-/

/-- A string node of the parsed document: either a plain text node or a
comment. -/
inductive StrNode where
  | textNode (s : PyStr)
  | commentNode (s : PyStr)
deriving DecidableEq

/-- The character content of a string node. -/
def StrNode.content : StrNode → PyStr
  | textNode s => s
  | commentNode s => s

/-- Whether a string node is an HTML comment. -/
def StrNode.isComment : StrNode → Bool
  | textNode _ => false
  | commentNode _ => true

/-- Match a literal at the front of a string, returning the remainder. -/
def dropLit (lit s : PyStr) : Option PyStr :=
  if lit.isPrefixOf s then some (s.drop lit.length) else none

/-- Match the regex `saved from url=\(\d+\)(https?://[^\s]+)` anchored at the
start of `s`, returning capture group 1.  `\d+` followed by the literal `\)`
forces a maximal digit run; `https?` tries `https` before backtracking to
`http`; the trailing `[^\s]+` is a maximal non-whitespace run. -/
def matchAt (s : PyStr) : Option PyStr := do
  let r1 ← dropLit "saved from url=(".toList s
  let ds := r1.takeWhile Char.isDigit
  if ds.isEmpty then none
  else do
    let r2 ← dropLit ")".toList (r1.drop ds.length)
    let (scheme, rest) ←
      match dropLit "https://".toList r2 with
      | some rest => some ("https://".toList, rest)
      | none =>
        match dropLit "http://".toList r2 with
        | some rest => some ("http://".toList, rest)
        | none => none
    let run := rest.takeWhile (fun c => !pySpace c)
    if run.isEmpty then none else some (scheme ++ run)

/-- Python `re.search` of the saved-from-url pattern: the leftmost position
where the anchored match succeeds. -/
def savedSearch : PyStr → Option PyStr
  | [] => none
  | c :: t =>
    match matchAt (c :: t) with
    | some r => some r
    | none => savedSearch t

/-- The loop body of parse_local_html.py lines 26-33 over the strings
returned by `find_all`: the `break` is reached only when the regex matches,
so a non-matching string is skipped and the scan continues. -/
def recoverLoop : List PyStr → Option PyStr
  | [] => none
  | s :: t =>
    if containsSub "saved from url".toList s then
      match savedSearch s with
      | some u => some (pyStrip u)
      | none => recoverLoop t
    else recoverLoop t

/-- URL recovery of parse_local_html.py lines 25-33: filter every string node
containing `saved from url` (text nodes and comments alike), then return the
stripped capture of the first one the regex matches. -/
def recoverUrl (doc : List StrNode) : Option PyStr :=
  recoverLoop
    ((doc.map StrNode.content).filter (fun s => containsSub "saved from url".toList s))

theorem matchAt_isPrefix (s u : PyStr) (h : matchAt s = some u) :
    "saved from url=(".toList.isPrefixOf s = true := by
  by_cases hp : "saved from url=(".toList.isPrefixOf s
  · exact hp
  · rw [matchAt, dropLit, if_neg hp] at h
    cases h

theorem savedSearch_contains (s u : PyStr) (h : savedSearch s = some u) :
    containsSub "saved from url".toList s = true := by
  induction s with
  | nil => cases h
  | cons c t ih =>
    rw [savedSearch] at h
    cases hm : matchAt (c :: t) with
    | some r =>
      have hp := matchAt_isPrefix (c :: t) r hm
      rw [ List.isPrefixOf_iff_prefix] at hp
      have hsub : ("saved from url".toList : PyStr) <+: (c :: t) :=
        List.IsPrefix.trans (by decide) hp
      exact containsSub_of_isPrefix _ _ hsub
    | none =>
      rw [hm] at h
      have := ih h
      rw [containsSub, this]
      simp

theorem recoverLoop_skip (A B : List PyStr)
    (hA : ∀ s ∈ A, savedSearch s = none) :
    recoverLoop (A ++ B) = recoverLoop B := by
  induction A with
  | nil => rfl
  | cons s t ih =>
    have hs := hA s (by simp)
    rw [List.cons_append, recoverLoop]
    by_cases hc : containsSub "saved from url".toList s = true
    · rw [if_pos hc, hs]
      exact ih (fun x hx => hA x (by simp [hx]))
    · rw [if_neg hc]
      exact ih (fun x hx => hA x (by simp [hx]))

/-- C6 counterexample: a document whose only string node is a plain text
node — not a comment — still yields a recovered URL, refuting "if no comment
matches the URL is null". -/
theorem C6_counterexample :
    (StrNode.textNode "saved from url=(01)https://a.example/x".toList).isComment
        = false ∧
      ([StrNode.textNode "saved from url=(01)https://a.example/x".toList].filter
        StrNode.isComment) = [] ∧
      recoverUrl [StrNode.textNode "saved from url=(01)https://a.example/x".toList] =
        some "https://a.example/x".toList := by
  refine ⟨rfl, rfl, by decide⟩

/-- C6 (amended) — URL recovery scans all string nodes, comments and text
nodes alike; the first node whose content matches
`saved from url=\(\d+\)(https?://\S+)` yields the captured URL, trimmed;
when no string node matches, the URL is null; and the comment
`saved from url=(0043)https://example.com/page` yields
`https://example.com/page`. -/
theorem C6_url_recovery_amended
    (pre post : List StrNode) (node : StrNode) (u : PyStr) (doc0 : List StrNode)
    (hpre : ∀ n ∈ pre, savedSearch n.content = none)
    (hnode : savedSearch node.content = some u)
    (hnone : ∀ n ∈ doc0, savedSearch n.content = none) :
    recoverUrl (pre ++ node :: post) = some (pyStrip u) ∧
      recoverUrl doc0 = none ∧
      recoverUrl
          [StrNode.commentNode " saved from url=(0043)https://example.com/page ".toList] =
        some "https://example.com/page".toList := by
  refine ⟨?_, ?_, by decide⟩
  · rw [recoverUrl, List.map_append, List.map_cons, List.filter_append]
    have hnc : containsSub "saved from url".toList node.content = true :=
      savedSearch_contains _ _ hnode
    rw [List.filter_cons, if_pos hnc]
    rw [recoverLoop_skip]
    · rw [recoverLoop, if_pos hnc, hnode]
    · intro s hs
      rcases List.mem_filter.mp hs with ⟨hs, _⟩
      rcases List.mem_map.mp hs with ⟨n, hn, rfl⟩
      exact hpre n hn
  · rw [recoverUrl]
    have : ∀ s ∈ (doc0.map StrNode.content).filter
        (fun s => containsSub "saved from url".toList s), savedSearch s = none := by
      intro s hs
      rcases List.mem_filter.mp hs with ⟨hs, _⟩
      rcases List.mem_map.mp hs with ⟨n, hn, rfl⟩
      exact hnone n hn
    rw [show ((doc0.map StrNode.content).filter
        (fun s => containsSub "saved from url".toList s)) =
        ((doc0.map StrNode.content).filter
        (fun s => containsSub "saved from url".toList s)) ++ [] from (List.append_nil _).symm]
    exact recoverLoop_skip _ [] this

/-- Witness for C6's amended theorem: a non-matching comment precedes a
matching comment of a text document; the match is recovered, the empty-match
document yields null, and the 0043 example recovers its URL. -/
theorem C6_witness :
    recoverUrl [StrNode.commentNode "saved from url but no actual match".toList,
        StrNode.textNode "saved from url=(7)http://b.example/y".toList] =
      some (pyStrip "http://b.example/y".toList) ∧
      recoverUrl [StrNode.textNode "plain text".toList] = none ∧
      recoverUrl
          [StrNode.commentNode " saved from url=(0043)https://example.com/page ".toList] =
        some "https://example.com/page".toList :=
  C6_url_recovery_amended
    [StrNode.commentNode "saved from url but no actual match".toList] []
    (StrNode.textNode "saved from url=(7)http://b.example/y".toList)
    "http://b.example/y".toList
    [StrNode.textNode "plain text".toList]
    (by decide) (by decide) (by decide)

/-!
The Extraction Orchestrator and Output Formatter of parse_local_html.py
(parse_html_file, lines 38-160) and webpage_to_llm.py (process_webpage,
lines 90-137).  The trafilatura result, the per-selector match lists, the
`find_all('div')` list, the body raw text and the markdownify conversion are
opaque library inputs.
-/

/-- The `--method` flag: `trafilatura`, `beautifulsoup` or `auto`. -/
inductive Method
  | trafilatura
  | beautifulsoup
  | auto
deriving DecidableEq

/-- Python `method in ['trafilatura', 'auto']`. -/
def methodInTraf : Method → Bool
  | .trafilatura => true
  | .auto => true
  | .beautifulsoup => false

/-- Python `method in ['beautifulsoup', 'auto']`. -/
def methodInBs : Method → Bool
  | .trafilatura => false
  | .auto => true
  | .beautifulsoup => true

/-- Opaque BeautifulSoup data feeding parse_html_file: the
`soup.select(selector)` result lists (one per selector of
`content_selectors`, a raising selector contributing `[]`), the
`soup.find_all('div')` list, the body's
`get_text(separator='\n', strip=True)` (absent when there is no `<body>`),
and the markdownify conversion `md(str(elem), heading_style="ATX",
bullets="-")` of an element. -/
structure LocalSoup where
  selMatches : List (List Elem)
  divs : List Elem
  bodyText : Option PyStr
  mdOf : Elem → PyStr

/-- Raw-text fallback of parse_html_file, lines 131-150: split the body text
on newlines, strip each line, keep lines longer than 2 characters not
starting with `MuiTypography`, and rejoin. -/
def rawTextFallback (bodyText : Option PyStr) : Option PyStr :=
  match bodyText with
  | none => none
  | some t =>
    some (pyJoinNl (((pySplit '\n' t).map pyStrip).filter
      (fun l => strTruthy l && decide (2 < l.length) &&
        !("MuiTypography".toList.isPrefixOf l))))

/-- Content cascade of parse_html_file, lines 39-150: trafilatura when the
method allows it, then the selector pass and the largest-div fallback
rendered through markdownify plus the whitespace collapse, then the raw-text
fallback.  Python's `if not content` truthiness drives each hand-off. -/
def parseContent (method : Method) (traf : Option PyStr) (soup : LocalSoup) :
    Option PyStr :=
  let c1 : Option PyStr := if methodInTraf method then traf else none
  let c2 : Option PyStr :=
    if !optTruthy c1 && methodInBs method then
      match selectorPass soup.selMatches with
      | some e => some (collapseWhitespace (soup.mdOf e))
      | none =>
        match divPass soup.divs with
        | some e => some (collapseWhitespace (soup.mdOf e))
        | none => c1
    else c1
  if !optTruthy c2 then
    match rawTextFallback soup.bodyText with
    | some t => some t
    | none => c2
  else c2

/-- Output assembly of parse_html_file, lines 152-160: title line, `Source:`
line when a URL is known, separator, then the body or the literal
`"No content extracted"` placeholder. -/
def formatLocal (title : PyStr) (url : Option PyStr) (content : Option PyStr) :
    PyStr :=
  pyJoinNl (("# ".toList ++ title) ::
    (if optTruthy url then ["Source: ".toList ++ url.getD []] else []) ++
    ["\n---\n".toList,
      if optTruthy content then content.getD []
      else "No content extracted".toList])

/-- parse_html_file of parse_local_html.py: content cascade then output
assembly.  `title` stands for the Python `f"{title}"` of
`soup.title.string if soup.title else "Untitled"`, and `url` is the
recovered saved-from-url result. -/
def parseHtmlFile (title : PyStr) (url : Option PyStr) (method : Method)
    (traf : Option PyStr) (soup : LocalSoup) : PyStr :=
  formatLocal title url (parseContent method traf soup)

/-- Python exception values crossing the pipeline boundary. -/
inductive PyExc where
  | requestException (msg : PyStr)
  | valueError (msg : PyStr)
  | other (msg : PyStr)
deriving DecidableEq

/-- Opaque BeautifulSoup data feeding process_webpage:
the five lookups of the `or`-chain of extract_with_beautifulsoup
(webpage_to_llm.py lines 49-55), `soup.title.string`, the meta description,
and the markdownify conversion. -/
structure WebSoup where
  findMain : Option Elem
  findArticle : Option Elem
  findDivClassContent : Option Elem
  findDivIdContent : Option Elem
  body : Option Elem
  titleStr : Option PyStr
  descStr : Option PyStr
  mdOf : Elem → PyStr

/-- extract_with_beautifulsoup of webpage_to_llm.py lines 40-67: first
non-`None` of `main`, `article`, `div.content`, `div#content`, `body`
(BeautifulSoup tags are always truthy), converted to Markdown and
whitespace-collapsed; `None` when nothing was found. -/
def extractWithBeautifulsoup (ws : WebSoup) : Option PyStr :=
  match ws.findMain <|> ws.findArticle <|> ws.findDivClassContent <|>
      ws.findDivIdContent <|> ws.body with
  | none => none
  | some e => some (collapseWhitespace (ws.mdOf e))

/-- Output assembly of process_webpage, webpage_to_llm.py lines 119-132:
title (or `Untitled`), `Source:` line, `Description:` line when non-empty,
separator, body. -/
def formatWeb (titleStr descStr : Option PyStr) (url body : PyStr) : PyStr :=
  pyJoinNl (("# ".toList ++ (match titleStr with
      | some t => if strTruthy t then t else "Untitled".toList
      | none => "Untitled".toList)) ::
    ("Source: ".toList ++ url) ::
    (match descStr with
      | some d => if strTruthy d then ["Description: ".toList ++ d] else []
      | none => []) ++
    ["\n---\n".toList, body])

/-- Body of the `try` block of process_webpage after the fetch,
webpage_to_llm.py lines 102-132: trafilatura then BeautifulSoup per the
method flag, a `ValueError` when nothing truthy was extracted, otherwise the
assembled output. -/
def processWebpageBody (url : PyStr) (method : Method) (traf : Option PyStr)
    (ws : WebSoup) : Except PyExc PyStr :=
  let c1 : Option PyStr := if methodInTraf method then traf else none
  let c2 : Option PyStr :=
    if !optTruthy c1 && methodInBs method then extractWithBeautifulsoup ws
    else c1
  if !optTruthy c2 then
    Except.error (.valueError "Failed to extract content from webpage".toList)
  else
    Except.ok (formatWeb ws.titleStr ws.descStr url (c2.getD []))

/-- The whole `try` block of process_webpage: fetch, then process; any raise
propagates. -/
def processWebpageRun (url : PyStr) (method : Method)
    (fetch : Except PyExc PyStr) (trafOf : PyStr → Option PyStr)
    (soupOf : PyStr → WebSoup) : Except PyExc PyStr :=
  match fetch with
  | .error e => .error e
  | .ok html => processWebpageBody url method (trafOf html) (soupOf html)

/-- The `except` clauses of process_webpage, webpage_to_llm.py lines 134-137:
`requests.RequestException` maps to `"Error fetching webpage: {e}"`, any
other exception to `"Error processing webpage: {e}"`. -/
def formatPyError : PyExc → PyStr
  | .requestException m => "Error fetching webpage: ".toList ++ m
  | .valueError m => "Error processing webpage: ".toList ++ m
  | .other m => "Error processing webpage: ".toList ++ m

/-- process_webpage of webpage_to_llm.py lines 90-137: run the `try` block
and turn any exception into an error string. -/
def processWebpage (url : PyStr) (method : Method) (fetch : Except PyExc PyStr)
    (trafOf : PyStr → Option PyStr) (soupOf : PyStr → WebSoup) : PyStr :=
  match processWebpageRun url method fetch trafOf soupOf with
  | .ok s => s
  | .error e => formatPyError e

theorem optTruthy_some_of_ne (s : PyStr) (hs : s ≠ []) :
    optTruthy (some s) = true := by
  cases s with
  | nil => exact absurd rfl hs
  | cons c t => rfl

theorem parseContent_auto_traf (s : PyStr) (hs : s ≠ []) (soup : LocalSoup) :
    parseContent .auto (some s) soup = some s := by
  have hT := optTruthy_some_of_ne s hs
  simp [parseContent, methodInTraf, methodInBs, hT]

theorem processWebpageBody_auto_traf (url : PyStr) (s : PyStr) (hs : s ≠ [])
    (ws : WebSoup) :
    processWebpageBody url .auto (some s) ws =
      .ok (formatWeb ws.titleStr ws.descStr url s) := by
  have hT := optTruthy_some_of_ne s hs
  simp [processWebpageBody, methodInTraf, methodInBs, hT]

/-- C1 — cascade short-circuit: with method `auto` and a non-empty
trafilatura result `s`, parse_html_file and process_webpage return `s`
verbatim as the body, and the result does not depend on any of the
selector-based Scorer's inputs — the Scorer is never consulted. -/
theorem C1_engine_short_circuits_scorer
    (title : PyStr) (url : Option PyStr) (s : PyStr)
    (soup soup' : LocalSoup) (urlW : PyStr) (ws ws' : WebSoup)
    (hs : s ≠ [])
    (ht : ws.titleStr = ws'.titleStr) (hd : ws.descStr = ws'.descStr) :
    parseContent .auto (some s) soup = some s ∧
      parseHtmlFile title url .auto (some s) soup =
        formatLocal title url (some s) ∧
      parseHtmlFile title url .auto (some s) soup =
        parseHtmlFile title url .auto (some s) soup' ∧
      processWebpageBody urlW .auto (some s) ws =
        .ok (formatWeb ws.titleStr ws.descStr urlW s) ∧
      processWebpageBody urlW .auto (some s) ws =
        processWebpageBody urlW .auto (some s) ws' := by
  refine ⟨parseContent_auto_traf s hs soup, ?_, ?_, ?_, ?_⟩
  · rw [parseHtmlFile, parseContent_auto_traf s hs soup]
  · rw [parseHtmlFile, parseHtmlFile, parseContent_auto_traf s hs soup,
      parseContent_auto_traf s hs soup']
  · exact processWebpageBody_auto_traf urlW s hs ws
  · rw [processWebpageBody_auto_traf urlW s hs ws,
      processWebpageBody_auto_traf urlW s hs ws', ht, hd]

/-- Concrete empty soup inputs for witnesses. -/
def soupEmpty : LocalSoup := ⟨[], [], none, fun _ => []⟩

/-- Concrete non-trivial soup: the Scorer would find a 120-character element
here, but with a successful engine it must not matter. -/
def soupBusy : LocalSoup :=
  ⟨[[⟨0, List.replicate 120 'q'⟩]], [⟨1, List.replicate 300 'r'⟩],
    some "body text here".toList, fun _ => "converted".toList⟩

/-- Concrete empty web soup for witnesses. -/
def wsEmpty : WebSoup := ⟨none, none, none, none, none, none, none, fun _ => []⟩

/-- Concrete web soup whose finds differ from `wsEmpty` but whose metadata
agrees. -/
def wsBusy : WebSoup :=
  ⟨some ⟨5, List.replicate 200 'm'⟩, none, none, none, none, none, none,
    fun _ => "zzz".toList⟩

/-- Witness for C1 at a concrete non-empty engine result and two differing
soups. -/
theorem C1_witness :
    parseContent .auto (some "engine output".toList) soupEmpty =
        some "engine output".toList ∧
      parseHtmlFile "T".toList none .auto (some "engine output".toList)
          soupEmpty =
        formatLocal "T".toList none (some "engine output".toList) ∧
      parseHtmlFile "T".toList none .auto (some "engine output".toList)
          soupEmpty =
        parseHtmlFile "T".toList none .auto (some "engine output".toList)
          soupBusy ∧
      processWebpageBody "u".toList .auto (some "engine output".toList)
          wsEmpty =
        .ok (formatWeb wsEmpty.titleStr wsEmpty.descStr "u".toList
          "engine output".toList) ∧
      processWebpageBody "u".toList .auto (some "engine output".toList)
          wsEmpty =
        processWebpageBody "u".toList .auto (some "engine output".toList)
          wsBusy :=
  C1_engine_short_circuits_scorer "T".toList none "engine output".toList
    soupEmpty soupBusy "u".toList wsEmpty wsBusy (by decide) rfl rfl

theorem formatLocal_falsy (t : PyStr) (u : Option PyStr) (c : Option PyStr)
    (h : optTruthy c = false) : formatLocal t u c = formatLocal t u none := by
  unfold formatLocal
  rw [h]
  simp [optTruthy]

theorem parseContent_falsy (method : Method) (traf : Option PyStr)
    (soup : LocalSoup) (h1 : optTruthy traf = false)
    (h2 : selectorPass soup.selMatches = none)
    (h3 : divPass soup.divs = none)
    (h4 : optTruthy (rawTextFallback soup.bodyText) = false) :
    optTruthy (parseContent method traf soup) = false := by
  have hc1 : optTruthy (if methodInTraf method then traf else none) = false := by
    cases methodInTraf method
    · rfl
    · simpa using h1
  simp only [parseContent, h2, h3, ite_self]
  rw [hc1]
  cases hrt : rawTextFallback soup.bodyText with
  | none => simpa using hc1
  | some t =>
    rw [hrt] at h4
    simpa using h4

theorem processWebpageBody_err (url : PyStr) (method : Method)
    (traf : Option PyStr) (ws : WebSoup)
    (h5 : optTruthy traf = false)
    (h6 : optTruthy (extractWithBeautifulsoup ws) = false) :
    processWebpageBody url method traf ws =
      .error (.valueError "Failed to extract content from webpage".toList) := by
  have hc1 : optTruthy (if methodInTraf method then traf else none) = false := by
    cases methodInTraf method
    · rfl
    · simpa using h5
  simp only [processWebpageBody]
  cases hg : (!optTruthy (if methodInTraf method then traf else none) &&
      methodInBs method) with
  | true => simp [hg, h6]
  | false => simp [hg, hc1]

theorem formatPyError_starts_error (e : PyExc) :
    "Error".toList <+: formatPyError e := by
  cases e with
  | requestException m =>
    exact List.IsPrefix.trans (by decide) (List.prefix_append _ m)
  | valueError m =>
    exact List.IsPrefix.trans (by decide) (List.prefix_append _ m)
  | other m =>
    exact List.IsPrefix.trans (by decide) (List.prefix_append _ m)

/-- C3 — no unhandled exception: when every strategy yields nothing the
file-based flow formats the literal `"No content extracted"` placeholder as
its body; the network flow returns the plain
`"Error processing webpage: ..."` string; and on any input the network flow's
result is the successful output or an `"Error"`-prefixed plain string — the
caller always receives a string. -/
theorem C3_total_no_raise
    (title : PyStr) (url : Option PyStr) (method : Method)
    (traf : Option PyStr) (soup : LocalSoup)
    (h1 : optTruthy traf = false)
    (h2 : selectorPass soup.selMatches = none)
    (h3 : divPass soup.divs = none)
    (h4 : optTruthy (rawTextFallback soup.bodyText) = false)
    (urlW : PyStr) (methodW : Method) (htmlW : PyStr)
    (trafW : PyStr → Option PyStr) (soupW : PyStr → WebSoup)
    (h5 : optTruthy (trafW htmlW) = false)
    (h6 : optTruthy (extractWithBeautifulsoup (soupW htmlW)) = false)
    (url2 : PyStr) (method2 : Method) (fetch2 : Except PyExc PyStr)
    (trafOf2 : PyStr → Option PyStr) (soupOf2 : PyStr → WebSoup) :
    parseHtmlFile title url method traf soup = formatLocal title url none ∧
      formatLocal title url none =
        pyJoinNl (("# ".toList ++ title) ::
          (if optTruthy url then ["Source: ".toList ++ url.getD []] else []) ++
          ["\n---\n".toList, "No content extracted".toList]) ∧
      processWebpage urlW methodW (.ok htmlW) trafW soupW =
        "Error processing webpage: Failed to extract content from webpage".toList ∧
      ((∃ out, processWebpage url2 method2 fetch2 trafOf2 soupOf2 = out ∧
          processWebpageRun url2 method2 fetch2 trafOf2 soupOf2 =
            Except.ok out) ∨
        "Error".toList <+: processWebpage url2 method2 fetch2 trafOf2 soupOf2) := by
  refine ⟨?_, ?_, ?_, ?_⟩
  · rw [parseHtmlFile]
    exact formatLocal_falsy title url _ (parseContent_falsy method traf soup h1 h2 h3 h4)
  · simp [formatLocal, optTruthy]
  · have hbody := processWebpageBody_err urlW methodW (trafW htmlW) (soupW htmlW) h5 h6
    simp only [processWebpage, processWebpageRun, hbody, formatPyError]
    decide
  · cases hres : processWebpageRun url2 method2 fetch2 trafOf2 soupOf2 with
    | ok s =>
      left
      refine ⟨s, ?_, rfl⟩
      simp only [processWebpage, hres]
    | error e =>
      right
      simp only [processWebpage, hres]
      exact formatPyError_starts_error e

/-- Witness for C3 on concrete all-empty inputs plus a concrete failing
fetch. -/
theorem C3_witness :
    parseHtmlFile "T".toList none .auto none soupEmpty =
        formatLocal "T".toList none none ∧
      formatLocal "T".toList none none =
        pyJoinNl (("# ".toList ++ "T".toList) ::
          (if optTruthy none then ["Source: ".toList ++ (none : Option PyStr).getD []]
            else []) ++
          ["\n---\n".toList, "No content extracted".toList]) ∧
      processWebpage "u".toList .auto (.ok "<html></html>".toList)
          (fun _ => none) (fun _ => wsEmpty) =
        "Error processing webpage: Failed to extract content from webpage".toList ∧
      ((∃ out, processWebpage "u".toList .auto
            (.error (.requestException "timeout".toList))
            (fun _ => none) (fun _ => wsEmpty) = out ∧
          processWebpageRun "u".toList .auto
            (.error (.requestException "timeout".toList))
            (fun _ => none) (fun _ => wsEmpty) = Except.ok out) ∨
        "Error".toList <+: processWebpage "u".toList .auto
          (.error (.requestException "timeout".toList))
          (fun _ => none) (fun _ => wsEmpty)) :=
  C3_total_no_raise "T".toList none .auto none soupEmpty rfl rfl rfl rfl
    "u".toList .auto "<html></html>".toList (fun _ => none) (fun _ => wsEmpty)
    rfl rfl
    "u".toList .auto (.error (.requestException "timeout".toList))
    (fun _ => none) (fun _ => wsEmpty)

/-!
Truncation, webpage_to_llm.py main lines 171-173 and webpage_to_llm_js.py
main lines 173-175 (identical code).
-/

/-- The literal truncation suffix. -/
def truncSuffix : PyStr := "\n\n[Content truncated...]".toList

/-- Python slice `s[:m]` for an `int` bound (negative bounds count from the
end). -/
def pySliceTo (m : Int) (s : PyStr) : PyStr :=
  if 0 ≤ m then s.take m.toNat else s.take (s.length - (-m).toNat)

/-- The length-limit application:
`if args.max_length and len(result) > args.max_length:
result = result[:args.max_length] + "\n\n[Content truncated...]"`.
`args.max_length` is `None` when not passed; `0` is falsy. -/
def applyMaxLength (maxLength : Option Int) (s : PyStr) : PyStr :=
  match maxLength with
  | none => s
  | some m =>
    if m ≠ 0 ∧ m < (s.length : Int) then pySliceTo m s ++ truncSuffix else s

/-- C8 — truncation: with a configured maximum `m > 0` and `len(s) > m` the
output is the first `m` characters of `s` followed by the literal suffix, so
its length is `m + len(suffix)` and it ends with the suffix; a string no
longer than `m` passes through unchanged. -/
theorem C8_truncation (s s' : PyStr) (m : Int)
    (h0 : 0 < m) (hlong : m < (s.length : Int))
    (hshort : (s'.length : Int) ≤ m) :
    applyMaxLength (some m) s = s.take m.toNat ++ truncSuffix ∧
      (applyMaxLength (some m) s).length = m.toNat + truncSuffix.length ∧
      truncSuffix <:+ applyMaxLength (some m) s ∧
      applyMaxLength (some m) s' = s' := by
  have hcond : m ≠ 0 ∧ m < (s.length : Int) := ⟨by omega, hlong⟩
  have heq : applyMaxLength (some m) s = s.take m.toNat ++ truncSuffix := by
    rw [applyMaxLength, if_pos hcond, pySliceTo, if_pos (by omega : (0:Int) ≤ m)]
  refine ⟨heq, ?_, ?_, ?_⟩
  · rw [heq, List.length_append, List.length_take]
    have : m.toNat ≤ s.length := by omega
    rw [Nat.min_eq_left this]
  · rw [heq]
    exact List.suffix_append _ _
  · rw [applyMaxLength]
    rw [if_neg]
    intro ⟨_, hc⟩
    omega

/-- Witness for C8: a 60-character string truncated at 50, and a short string
left unchanged. -/
theorem C8_witness :
    applyMaxLength (some 50) (List.replicate 60 'a') =
        (List.replicate 60 'a').take (50 : Int).toNat ++ truncSuffix ∧
      (applyMaxLength (some 50) (List.replicate 60 'a')).length =
        (50 : Int).toNat + truncSuffix.length ∧
      truncSuffix <:+ applyMaxLength (some 50) (List.replicate 60 'a') ∧
      applyMaxLength (some 50) "short".toList = "short".toList :=
  C8_truncation (List.replicate 60 'a') "short".toList 50 (by decide)
    (by decide) (by decide)

/-!
The first-match Scorer variant: extract_content of save_and_parse_arc.py
(lines 78-134) and of webpage_to_llm_safari.py (lines 79-125).  Both walk one
ordered selector list with `soup.select_one` and stop at the first truthy
match; `select_one` results (one per selector, in the file's list order) are
opaque inputs.
-/

/-- Opaque soup data for save_and_parse_arc.py extract_content. -/
structure ArcSoup where
  selOne : List (Option Elem)
  divs : List Elem
  body : Option Elem

/-- Opaque soup data for webpage_to_llm_safari.py extract_content. -/
structure SafariSoup where
  selOne : List (Option Elem)
  divs : List Elem
  body : Option Elem

/-- The selector walk
`for selector in selectors: main_content = soup.select_one(selector);
if main_content: break` — after the loop, `main_content` is the first
non-`None` result, or `None` (the last `select_one` result is `None` when no
break happened, tags being always truthy). -/
def firstMatch : List (Option Elem) → Option Elem
  | [] => none
  | r :: t =>
    match r with
    | some e => some e
    | none => firstMatch t

/-- Python `max(cur :: l, key=key)`: keeps the current maximum and replaces
it only on a strictly greater key, so the first maximum wins ties. -/
def pyMaxBy (key : α → Nat) (cur : α) : List α → α
  | [] => cur
  | a :: t => pyMaxBy key (if key cur < key a then a else cur) t

/-- Div fallback of save_and_parse_arc.py lines 116-124: keep divs with more
than 100 characters of text (the source caches `(div, len)` pairs; the
cached length is `textLen`), then `max(text_divs, key=lambda x: x[1])[0]`;
`None` when no div qualifies. -/
def arcDivFallback (divs : List Elem) : Option Elem :=
  match divs.filter (fun d => decide (100 < textLen d)) with
  | [] => none
  | d :: t => some (pyMaxBy textLen d t)

/-- Div fallback of webpage_to_llm_safari.py lines 111-115:
`if divs: main_content = max(divs, key=lambda d: len(d.get_text(strip=True)))`
over every div, with no threshold and no filter. -/
def safariDivFallback (divs : List Elem) : Option Elem :=
  match divs with
  | [] => none
  | d :: t => some (pyMaxBy textLen d t)

/-- Main-content choice of save_and_parse_arc.py extract_content lines
110-127: first selector match, else the qualifying div of maximal text
length, else `soup.body`. -/
def arcChooseMain (s : ArcSoup) : Option Elem :=
  match firstMatch s.selOne with
  | some e => some e
  | none =>
    match arcDivFallback s.divs with
    | some e => some e
    | none => s.body

/-- Main-content choice of webpage_to_llm_safari.py extract_content lines
106-118: first selector match, else the div of maximal text length, else
`soup.body`. -/
def safariChooseMain (s : SafariSoup) : Option Elem :=
  match firstMatch s.selOne with
  | some e => some e
  | none =>
    match safariDivFallback s.divs with
    | some e => some e
    | none => s.body

theorem firstMatch_all_none (l : List (Option Elem))
    (h : ∀ x ∈ l, x = none) : firstMatch l = none := by
  induction l with
  | nil => rfl
  | cons r t ih =>
    have hr := h r (by simp)
    subst hr
    simp only [firstMatch]
    exact ih (fun x hx => h x (by simp [hx]))

theorem firstMatch_first_some (pre : List (Option Elem)) (e : Elem)
    (post : List (Option Elem)) (hpre : ∀ x ∈ pre, x = none) :
    firstMatch (pre ++ some e :: post) = some e := by
  induction pre with
  | nil => rfl
  | cons r t ih =>
    have hr := hpre r (by simp)
    subst hr
    rw [List.cons_append]
    simp only [firstMatch]
    exact ih (fun x hx => hpre x (by simp [hx]))

theorem pyMaxBy_mem (key : α → Nat) (l : List α) :
    ∀ cur, pyMaxBy key cur l = cur ∨ pyMaxBy key cur l ∈ l := by
  induction l with
  | nil => intro cur; left; rfl
  | cons a t ih =>
    intro cur
    rw [pyMaxBy]
    rcases ih (if key cur < key a then a else cur) with h | h
    · rw [h]
      by_cases hlt : key cur < key a
      · right; rw [if_pos hlt]; simp
      · left; rw [if_neg hlt]
    · right; simp [h]

theorem pyMaxBy_max (key : α → Nat) (l : List α) :
    ∀ cur, key cur ≤ key (pyMaxBy key cur l) ∧
      ∀ a ∈ l, key a ≤ key (pyMaxBy key cur l) := by
  induction l with
  | nil => intro cur; exact ⟨Nat.le_refl _, by simp⟩
  | cons a t ih =>
    intro cur
    rw [pyMaxBy]
    rcases ih (if key cur < key a then a else cur) with ⟨hcur, hall⟩
    have hc : key cur ≤ key (if key cur < key a then a else cur) := by
      by_cases hlt : key cur < key a
      · rw [if_pos hlt]; exact Nat.le_of_lt hlt
      · rw [if_neg hlt]
    have ha : key a ≤ key (if key cur < key a then a else cur) := by
      by_cases hlt : key cur < key a
      · rw [if_pos hlt]
      · rw [if_neg hlt]; exact Nat.le_of_not_lt hlt
    refine ⟨Nat.le_trans hc hcur, ?_⟩
    intro x hx
    rcases List.mem_cons.mp hx with hxa | hxt
    · rw [hxa]
      exact Nat.le_trans ha hcur
    · exact hall x hxt

/-- C7 — first-match Scorer variant (Arc live-tab and Safari/Selenium front
ends): the chosen element is the first selector match in list order with no
text-length comparison; with no selector match, the Arc flow picks the
qualifying (over-100-character) div of maximal raw text length and the
Safari flow the div of maximal raw text length among all divs, neither
applying any boilerplate filter; and with no qualifying div the choice is
the `<body>` element itself. -/
theorem C7_first_match_variant
    (pre post : List (Option Elem)) (e : Elem) (divsA : List Elem)
    (bodyA : Option Elem)
    (hpre : ∀ x ∈ pre, x = none)
    (selB : List (Option Elem)) (divsB : List Elem) (dB : Elem)
    (bodyB : Option Elem)
    (hselB : ∀ x ∈ selB, x = none) (hdB : dB ∈ divsB)
    (hlenB : 100 < textLen dB)
    (selC : List (Option Elem)) (dC : Elem) (restC : List Elem)
    (bodyC : Option Elem)
    (hselC : ∀ x ∈ selC, x = none)
    (selD : List (Option Elem)) (divsD : List Elem) (bodyD : Option Elem)
    (hselD : ∀ x ∈ selD, x = none) (hdivsD : ∀ d ∈ divsD, textLen d ≤ 100)
    (selE : List (Option Elem)) (bodyE : Option Elem)
    (hselE : ∀ x ∈ selE, x = none) :
    arcChooseMain ⟨pre ++ some e :: post, divsA, bodyA⟩ = some e ∧
      safariChooseMain ⟨pre ++ some e :: post, divsA, bodyA⟩ = some e ∧
      (∃ w, arcChooseMain ⟨selB, divsB, bodyB⟩ = some w ∧ w ∈ divsB ∧
        100 < textLen w ∧
        ∀ d ∈ divsB, 100 < textLen d → textLen d ≤ textLen w) ∧
      (∃ w, safariChooseMain ⟨selC, dC :: restC, bodyC⟩ = some w ∧
        w ∈ dC :: restC ∧ ∀ d ∈ dC :: restC, textLen d ≤ textLen w) ∧
      arcChooseMain ⟨selD, divsD, bodyD⟩ = bodyD ∧
      safariChooseMain ⟨selE, [], bodyE⟩ = bodyE := by
  have hfm := firstMatch_first_some pre e post hpre
  refine ⟨?_, ?_, ?_, ?_, ?_, ?_⟩
  · rw [arcChooseMain]
    simp only [hfm]
  · rw [safariChooseMain]
    simp only [hfm]
  · have hmemf : dB ∈ divsB.filter (fun d => decide (100 < textLen d)) :=
      List.mem_filter.mpr ⟨hdB, by simpa using hlenB⟩
    rcases hf : divsB.filter (fun d => decide (100 < textLen d)) with _ | ⟨d0, t0⟩
    · rw [hf] at hmemf; cases hmemf
    · refine ⟨pyMaxBy textLen d0 t0, ?_, ?_, ?_, ?_⟩
      · rw [arcChooseMain]
        simp only [firstMatch_all_none selB hselB, arcDivFallback, hf]
      · have : pyMaxBy textLen d0 t0 ∈ d0 :: t0 := by
          rcases pyMaxBy_mem textLen t0 d0 with h | h
          · rw [h]; simp
          · simp [h]
        rw [← hf] at this
        exact (List.mem_filter.mp this).1
      · have : pyMaxBy textLen d0 t0 ∈ d0 :: t0 := by
          rcases pyMaxBy_mem textLen t0 d0 with h | h
          · rw [h]; simp
          · simp [h]
        rw [← hf] at this
        simpa using (List.mem_filter.mp this).2
      · intro d hd hdq
        have hdf : d ∈ d0 :: t0 := by
          rw [← hf]
          exact List.mem_filter.mpr ⟨hd, by simpa using hdq⟩
        rcases pyMaxBy_max textLen t0 d0 with ⟨h0, hall⟩
        rcases List.mem_cons.mp hdf with h | h
        · rw [h]; exact h0
        · exact hall d h
  · refine ⟨pyMaxBy textLen dC restC, ?_, ?_, ?_⟩
    · rw [safariChooseMain]
      simp only [firstMatch_all_none selC hselC, safariDivFallback]
    · rcases pyMaxBy_mem textLen restC dC with h | h
      · rw [h]; simp
      · simp [h]
    · intro d hd
      rcases pyMaxBy_max textLen restC dC with ⟨h0, hall⟩
      rcases List.mem_cons.mp hd with h | h
      · rw [h]; exact h0
      · exact hall d h
  · rw [arcChooseMain]
    have hf : divsD.filter (fun d => decide (100 < textLen d)) = [] := by
      rw [List.filter_eq_nil_iff]
      intro d hd
      simpa using Nat.not_lt.mpr (hdivsD d hd)
    simp only [firstMatch_all_none selD hselD, arcDivFallback, hf]
  · rw [safariChooseMain]
    simp only [firstMatch_all_none selE hselE, safariDivFallback]

/-- Witness for C7: a two-character element under the second selector wins
over longer divs; with no selector match the 150-character div (Arc) or the
longest div (Safari) wins; tiny-div and no-div documents fall back to the
body element. -/
theorem C7_witness :
    arcChooseMain ⟨[none] ++ some ⟨9, "hi".toList⟩ :: [none],
        [⟨0, List.replicate 150 'a'⟩], some ⟨7, "b".toList⟩⟩ =
      some ⟨9, "hi".toList⟩ ∧
      safariChooseMain ⟨[none] ++ some ⟨9, "hi".toList⟩ :: [none],
          [⟨0, List.replicate 150 'a'⟩], some ⟨7, "b".toList⟩⟩ =
        some ⟨9, "hi".toList⟩ ∧
      (∃ w, arcChooseMain ⟨[none, none],
          [⟨0, List.replicate 150 'a'⟩, ⟨1, List.replicate 120 'c'⟩],
          some ⟨7, "b".toList⟩⟩ = some w ∧
        w ∈ [⟨0, List.replicate 150 'a'⟩, ⟨1, List.replicate 120 'c'⟩] ∧
        100 < textLen w ∧
        ∀ d ∈ [⟨0, List.replicate 150 'a'⟩, ⟨1, List.replicate 120 'c'⟩],
          100 < textLen d → textLen d ≤ textLen w) ∧
      (∃ w, safariChooseMain ⟨[none],
          ⟨2, "tiny".toList⟩ :: [⟨3, List.replicate 40 'd'⟩],
          some ⟨7, "b".toList⟩⟩ = some w ∧
        w ∈ ⟨2, "tiny".toList⟩ :: [⟨3, List.replicate 40 'd'⟩] ∧
        ∀ d ∈ ⟨2, "tiny".toList⟩ :: [⟨3, List.replicate 40 'd'⟩],
          textLen d ≤ textLen w) ∧
      arcChooseMain ⟨[none], [⟨4, "short".toList⟩], some ⟨7, "b".toList⟩⟩ =
        some ⟨7, "b".toList⟩ ∧
      safariChooseMain ⟨[none], [], some ⟨7, "b".toList⟩⟩ =
        some ⟨7, "b".toList⟩ :=
  C7_first_match_variant [none] [none] ⟨9, "hi".toList⟩
    [⟨0, List.replicate 150 'a'⟩] (some ⟨7, "b".toList⟩) (by decide)
    [none, none] [⟨0, List.replicate 150 'a'⟩, ⟨1, List.replicate 120 'c'⟩]
    ⟨0, List.replicate 150 'a'⟩ (some ⟨7, "b".toList⟩) (by decide) (by decide)
    (by decide)
    [none] ⟨2, "tiny".toList⟩ [⟨3, List.replicate 40 'd'⟩]
    (some ⟨7, "b".toList⟩) (by decide)
    [none] [⟨4, "short".toList⟩] (some ⟨7, "b".toList⟩) (by decide) (by decide)
    [none] (some ⟨7, "b".toList⟩) (by decide)

end LlmPageParser
